import Mathlib

/-!
Verification of the search-request encoder/decoder in `btrfs.py`
(the `search` function together with the `struct.Struct` layouts
`ioctl_search_key = "=Q6QLLL4x32x"` and `ioctl_search_header = "=3Q2L"`).

Buffers are modelled as `List Nat` of byte values; multi-byte integers use
little-endian order (the host order the `=` format prefix selects on the
platforms the script targets).  Python `struct` range checks, the
`unpack_from` bounds check, and Python's clamping slice semantics are
modelled explicitly.
-/

set_option maxRecDepth 2000

namespace Btrfs

/-- Little-endian encoding of `v` into `w` bytes (low byte first). -/
def toLE : Nat → Nat → List Nat
  | _, 0 => []
  | v, w + 1 => v % 256 :: toLE (v / 256) w

/-- Little-endian decoding of a byte list. -/
def fromLE : List Nat → Nat
  | [] => 0
  | b :: bs => b + 256 * fromLE bs

/-- The `w` bytes of `buf` starting at `off` (shorter if the buffer ends). -/
def seg (buf : List Nat) (off w : Nat) : List Nat :=
  (buf.drop off).take w

/-- Python slice `buf[a:b]` for `0 ≤ a, b`: clamps to the ends, never errors. -/
def pySlice (buf : List Nat) (a b : Nat) : List Nat :=
  (buf.take b).drop a

/-- One field of a Python `struct` format string (standard sizes, `=` prefix):
`Q` is an 8-byte unsigned integer, `L` a 4-byte unsigned integer,
`x`-runs are pad bytes. -/
inductive FieldKind where
  | u64 : FieldKind
  | u32 : FieldKind
  | pad : Nat → FieldKind
deriving DecidableEq

/-- Total byte size of a format (Python `Struct.size`). -/
def fmtSize : List FieldKind → Nat
  | [] => 0
  | FieldKind.u64 :: fs => 8 + fmtSize fs
  | FieldKind.u32 :: fs => 4 + fmtSize fs
  | FieldKind.pad n :: fs => n + fmtSize fs

/-- Python `Struct.pack` over our byte model: checks each value against its
field width (Python raises `struct.error` for an out-of-range argument and
for an argument-count mismatch), writes pad bytes as zeros. -/
def packFields : List FieldKind → List Nat → Option (List Nat)
  | [], [] => some []
  | FieldKind.u64 :: fs, v :: vs =>
    if v < 2 ^ 64 then (packFields fs vs).map (fun bs => toLE v 8 ++ bs) else none
  | FieldKind.u32 :: fs, v :: vs =>
    if v < 2 ^ 32 then (packFields fs vs).map (fun bs => toLE v 4 ++ bs) else none
  | FieldKind.pad n :: fs, vs =>
    (packFields fs vs).map (fun bs => List.replicate n 0 ++ bs)
  | _, _ => none

/-- Python `Struct.unpack_from(buf, pos)`: fails (raises `struct.error`)
when the buffer holds fewer than `size` bytes past `pos`, otherwise reads
each value field at its fixed offset, skipping pad bytes. -/
def unpackFields : List FieldKind → List Nat → Nat → Option (List Nat)
  | [], _, _ => some []
  | FieldKind.u64 :: fs, buf, pos =>
    if pos + 8 ≤ buf.length then
      (unpackFields fs buf (pos + 8)).map (fun vs => fromLE (seg buf pos 8) :: vs)
    else none
  | FieldKind.u32 :: fs, buf, pos =>
    if pos + 4 ≤ buf.length then
      (unpackFields fs buf (pos + 4)).map (fun vs => fromLE (seg buf pos 4) :: vs)
    else none
  | FieldKind.pad n :: fs, buf, pos =>
    if pos + n ≤ buf.length then unpackFields fs buf (pos + n) else none

/-- Python `Struct.pack_into(buf, 0, *vals)`: requires the buffer to hold the
packed size, overwrites the leading bytes and keeps the rest. -/
def pack_into (fmt : List FieldKind) (buf : List Nat) (vals : List Nat) :
    Option (List Nat) :=
  match packFields fmt vals with
  | some bs => if bs.length ≤ buf.length then some (bs ++ buf.drop bs.length) else none
  | none => none

/-- `ULLONG_MAX = (1 << 64) - 1` from btrfs.py. -/
def ULLONG_MAX : Nat := (1 <<< 64) - 1

/-- `ULONG_MAX = (1 << 32) - 1` from btrfs.py. -/
def ULONG_MAX : Nat := (1 <<< 32) - 1

/-- `ioctl_search_key = struct.Struct("=Q6QLLL4x32x")`: seven u64 fields,
three u32 fields, then 4 + 32 pad bytes. -/
def ioctl_search_key : List FieldKind :=
  [FieldKind.u64, FieldKind.u64, FieldKind.u64, FieldKind.u64, FieldKind.u64,
   FieldKind.u64, FieldKind.u64, FieldKind.u32, FieldKind.u32, FieldKind.u32,
   FieldKind.pad 4, FieldKind.pad 32]

/-- `ioctl_search_header = struct.Struct("=3Q2L")`:
transid, objectid, offset, type, len. -/
def ioctl_search_header : List FieldKind :=
  [FieldKind.u64, FieldKind.u64, FieldKind.u64, FieldKind.u32, FieldKind.u32]

/-- `sized_array(count)` from btrfs.py: a zero-filled byte array. -/
def sized_array (count : Nat) : List Nat :=
  List.replicate count 0

/-- The decoded `ioctl_search_header` tuple
`(transid, objectid, offset, type, len)`; `len` is the payload length
(`header[4]` in the source). -/
structure SearchHeader where
  transid : Nat
  objectid : Nat
  offset : Nat
  item_type : Nat
  len : Nat
deriving DecidableEq

/-- All header fields within the widths of `=3Q2L`. -/
def headerInRange (h : SearchHeader) : Prop :=
  h.transid < 2 ^ 64 ∧ h.objectid < 2 ^ 64 ∧ h.offset < 2 ^ 64 ∧
    h.item_type < 2 ^ 32 ∧ h.len < 2 ^ 32

instance (h : SearchHeader) : Decidable (headerInRange h) := by
  unfold headerInRange; infer_instance

/-- The header's field values in pack order. -/
def headerVals (h : SearchHeader) : List Nat :=
  [h.transid, h.objectid, h.offset, h.item_type, h.len]

/-- The 32 bytes `ioctl_search_header.pack` would produce. -/
def packHeader (h : SearchHeader) : List Nat :=
  toLE h.transid 8 ++ toLE h.objectid 8 ++ toLE h.offset 8 ++
    toLE h.item_type 4 ++ toLE h.len 4

/-- `ioctl_search_header.unpack_from(buf, pos)` from the decode loop. -/
def parseHeader (buf : List Nat) (pos : Nat) : Option SearchHeader :=
  match unpackFields ioctl_search_header buf pos with
  | some [a, b, c, d, e] => some ⟨a, b, c, d, e⟩
  | _ => none

/-- One element of the list `search` returns: the tuple
`(header, raw_data, data)`.  `data` is the optional typed decode; it is
modelled as the byte segment the caller-supplied `structure` argument reads
(`structure.unpack_from(buf, pos)` is a pure function of exactly
`structure.size` bytes at the payload offset, so the segment determines the
decoded tuple). -/
structure ResultRecord where
  header : SearchHeader
  raw_data : List Nat
  data : Option (List Nat)
deriving DecidableEq

/-- A `struct.error` escaping the decode loop. -/
inductive DecodeErr where
  | structError : DecodeErr
deriving DecidableEq

/-- The `while num_items > 0` decode loop of `search` (btrfs.py lines
217-226), with `struc` the size of the optional `structure` argument.  Each
step: unpack a header at `pos` (a short buffer raises `struct.error`),
advance 32 bytes, slice `header[4]` payload bytes with Python's clamping
slice, optionally read `structure.size` bytes for the typed decode (raising
`struct.error` when they do not fit), append the record and advance past
the payload. -/
def decodeItems (buf : List Nat) (struc : Option Nat) :
    Nat → Nat → Except DecodeErr (List ResultRecord)
  | _, 0 => Except.ok []
  | pos, n + 1 =>
    match parseHeader buf pos with
    | none => Except.error DecodeErr.structError
    | some hdr =>
      let raw := pySlice buf (pos + 32) (pos + 32 + hdr.len)
      match struc with
      | none =>
        match decodeItems buf none (pos + 32 + hdr.len) n with
        | Except.ok rest => Except.ok (⟨hdr, raw, none⟩ :: rest)
        | Except.error e => Except.error e
      | some s =>
        if pos + 32 + s ≤ buf.length then
          match decodeItems buf (some s) (pos + 32 + hdr.len) n with
          | Except.ok rest => Except.ok (⟨hdr, raw, some (seg buf (pos + 32) s)⟩ :: rest)
          | Except.error e => Except.error e
        else Except.error DecodeErr.structError

/-- The decode stage of `search` after the ioctl returns (btrfs.py lines
213-228): re-unpack the search key from the mutated buffer, take
`results[9]` (the `number` slot, reused by the kernel as the result count)
and run the item loop from offset `ioctl_search_key.size = 104`. -/
def decodeResponse (buf : List Nat) (struc : Option Nat) :
    Except DecodeErr (List ResultRecord) :=
  match unpackFields ioctl_search_key buf 0 with
  | some [_, _, _, _, _, _, _, _, _, n] => decodeItems buf struc 104 n
  | _ => Except.error DecodeErr.structError

/-- A range argument of `search`: the source accepts either a scalar or a
`(low, high)` pair per dimension and collapses a scalar `v` to `(v, v)`
via the `try: min, max = arg / except TypeError: min = max = arg` idiom. -/
inductive RangeArg where
  | scalar : Nat → RangeArg
  | pair : Nat → Nat → RangeArg
deriving DecidableEq

/-- The `(min, max)` pair the try/except normalization produces. -/
def RangeArg.toPair : RangeArg → Nat × Nat
  | RangeArg.scalar v => (v, v)
  | RangeArg.pair lo hi => (lo, hi)

/-- Default of the `objid` parameter: `(0, ULLONG_MAX)`. -/
def objidDefault : RangeArg := RangeArg.pair 0 ULLONG_MAX

/-- Default of the `key_type` parameter: `(0, ULONG_MAX)`. -/
def key_typeDefault : RangeArg := RangeArg.pair 0 ULONG_MAX

/-- Default of the `offset` parameter: `(0, ULLONG_MAX)`. -/
def offsetDefault : RangeArg := RangeArg.pair 0 ULLONG_MAX

/-- Default of the `transid` parameter: `(0, ULLONG_MAX)`. -/
def transidDefault : RangeArg := RangeArg.pair 0 ULLONG_MAX

/-- Default of the `number` parameter: `ULONG_MAX`. -/
def numberDefault : Nat := ULONG_MAX

/-- The ten values `search` passes to `ioctl_search_key.pack_into`, in the
source's argument order: tree, min/max objectid, min/max offset, min/max
transid, min/max type, number. -/
def searchKeyVals (tree : Nat) (objid key_type offset transid : RangeArg)
    (number : Nat) : List Nat :=
  [tree, objid.toPair.1, objid.toPair.2, offset.toPair.1, offset.toPair.2,
   transid.toPair.1, transid.toPair.2, key_type.toPair.1, key_type.toPair.2,
   number]

/-- The encode stage of `search` (btrfs.py lines 183-210): normalize each
range argument, then pack the search key into the scratch buffer at
offset 0.  `some buf2` is the buffer handed to the ioctl; `none` is a
`struct.error` raised before any transport call. -/
def encodeSearchRequest (tree : Nat) (objid key_type offset transid : RangeArg)
    (number : Nat) (buf : List Nat) : Option (List Nat) :=
  pack_into ioctl_search_key buf (searchKeyVals tree objid key_type offset transid number)

/-- Re-reading the search-key fields from a buffer's fixed offsets
(`ioctl_search_key.unpack_from(buf, 0)`). -/
def unpackSearchKey (buf : List Nat) : Option (List Nat) :=
  unpackFields ioctl_search_key buf 0

/-- The wire bytes of a packed sequence of (header, payload) entries, as the
kernel lays them out after the envelope. -/
def entriesBytes : List (SearchHeader × List Nat) → List Nat
  | [] => []
  | e :: es => packHeader e.1 ++ e.2 ++ entriesBytes es

/-- The envelope layout as the spec describes it — for comparison with what
`packFields ioctl_search_key` produces: tree id; object-id low/high; offset
low/high; transaction-id low/high; type low/high; max items; u64 for the
tree id and the u64-dimension bounds, u32 for the type bounds and max
items; then 4 and 32 zero-filled reserved bytes. -/
def searchKeyLayoutSpec (tree minO maxO minOff maxOff minT maxT minTy maxTy
    num : Nat) : List Nat :=
  toLE tree 8 ++ toLE minO 8 ++ toLE maxO 8 ++ toLE minOff 8 ++ toLE maxOff 8 ++
    toLE minT 8 ++ toLE maxT 8 ++ toLE minTy 4 ++ toLE maxTy 4 ++ toLE num 4 ++
    List.replicate 4 0 ++ List.replicate 32 0

/-! Concrete inputs used by the witness theorems. -/

/-- A 104-byte envelope whose result-count slot (offset 64) holds 1. -/
def countOneEnv : List Nat :=
  List.replicate 64 0 ++ ([1, 0, 0, 0] ++ List.replicate 36 0)

/-- A header for one two-byte payload. -/
def c1hdr : SearchHeader := ⟨1, 2, 3, 4, 2⟩

/-- One well-formed entry with payload `[9, 8]`. -/
def c1entries : List (SearchHeader × List Nat) := [(c1hdr, [9, 8])]

/-- A header declaring a five-byte payload. -/
def c2hdr : SearchHeader := ⟨1, 2, 3, 4, 5⟩

/-- A response that declares one record with `data_length = 5` but ends
right after the header: zero payload bytes remain. -/
def c2buf : List Nat := countOneEnv ++ packHeader c2hdr

/-- A 104-byte scratch buffer. -/
def c3buf : List Nat := sized_array 104

/-- A header with `data_length = 0`. -/
def c9h0 : SearchHeader := ⟨1, 2, 3, 4, 0⟩

/-- A zero-length-payload record followed by a normal record. -/
def c9buf : List Nat := packHeader c9h0 ++ (packHeader ⟨5, 6, 7, 8, 1⟩ ++ [9])

/-- A header declaring a two-byte payload. -/
def c10h0 : SearchHeader := ⟨1, 2, 3, 4, 2⟩

/-- A second record's header. -/
def c10h1 : SearchHeader := ⟨5, 6, 7, 8, 1⟩

/-- Two packed records and slack: 32 + 2 + 32 + 14 = 80 bytes. -/
def c10buf : List Nat :=
  packHeader c10h0 ++ ([7, 7] ++ (packHeader c10h1 ++ List.replicate 14 9))

/-- A 104-byte all-zero envelope (count 0) followed by nonzero junk. -/
def c8buf : List Nat := List.replicate 104 0 ++ [7, 7, 7]

/-! ### Byte-level helper lemmas -/

theorem toLE_length : ∀ (w v : Nat), (toLE v w).length = w := by
  intro w
  induction w with
  | zero => intro v; rfl
  | succ w ih => intro v; simp [toLE, ih]

theorem fromLE_toLE : ∀ (w v : Nat), v < 256 ^ w → fromLE (toLE v w) = v := by
  intro w
  induction w with
  | zero => intro v hv; interval_cases v; rfl
  | succ w ih =>
    intro v hv
    have hdiv : v / 256 < 256 ^ w := by
      rw [Nat.div_lt_iff_lt_mul (by norm_num : 0 < 256)]
      calc v < 256 ^ (w + 1) := hv
        _ = 256 ^ w * 256 := by ring
    simp [toLE, fromLE, ih _ hdiv, Nat.mod_add_div]

theorem seg_append_left (l₁ l₂ : List Nat) (off w : Nat) (h : off + w ≤ l₁.length) :
    seg (l₁ ++ l₂) off w = seg l₁ off w := by
  unfold seg
  rw [List.drop_append_eq_append_drop]
  have h₁ : off - l₁.length = 0 := by omega
  rw [h₁, List.drop_zero, List.take_append_eq_append_take]
  have h₂ : w - (l₁.drop off).length = 0 := by
    rw [List.length_drop]; omega
  rw [h₂, List.take_zero, List.append_nil]

theorem seg_prefix (pre X : List Nat) (w : Nat) :
    seg (pre ++ X) pre.length w = X.take w := by
  unfold seg
  rw [List.drop_left]

theorem pySlice_eq_seg (buf : List Nat) (a w : Nat) :
    pySlice buf a (a + w) = seg buf a w := by
  unfold pySlice seg
  rw [List.drop_take]
  congr 1
  omega

theorem pySlice_of_length_le (buf : List Nat) (a b : Nat) (h : buf.length ≤ b) :
    pySlice buf a b = buf.drop a := by
  unfold pySlice
  rw [List.take_of_length_le h]

theorem packHeader_length (h : SearchHeader) : (packHeader h).length = 32 := by
  simp [packHeader, toLE_length]

theorem packFields_length : ∀ (fmt : List FieldKind) (vals bs : List Nat),
    packFields fmt vals = some bs → bs.length = fmtSize fmt := by
  intro fmt
  induction fmt with
  | nil =>
    intro vals bs hp
    cases vals with
    | nil => simp [packFields] at hp; simp [← hp, fmtSize]
    | cons v vs => simp [packFields] at hp
  | cons f fs ih =>
    intro vals bs hp
    cases f with
    | u64 =>
      cases vals with
      | nil => simp [packFields] at hp
      | cons v vs =>
        simp only [packFields] at hp
        by_cases hv : v < 2 ^ 64
        · rw [if_pos hv] at hp
          cases hps : packFields fs vs with
          | none => rw [hps] at hp; simp at hp
          | some bs2 =>
            rw [hps] at hp
            simp only [Option.map_some', Option.some_inj] at hp
            subst hp
            simp [fmtSize, toLE_length, ih vs bs2 hps]
        · rw [if_neg hv] at hp; exact absurd hp (by simp)
    | u32 =>
      cases vals with
      | nil => simp [packFields] at hp
      | cons v vs =>
        simp only [packFields] at hp
        by_cases hv : v < 2 ^ 32
        · rw [if_pos hv] at hp
          cases hps : packFields fs vs with
          | none => rw [hps] at hp; simp at hp
          | some bs2 =>
            rw [hps] at hp
            simp only [Option.map_some', Option.some_inj] at hp
            subst hp
            simp [fmtSize, toLE_length, ih vs bs2 hps]
        · rw [if_neg hv] at hp; exact absurd hp (by simp)
    | pad n =>
      simp only [packFields] at hp
      cases hps : packFields fs vals with
      | none => rw [hps] at hp; simp at hp
      | some bs2 =>
        rw [hps] at hp
        simp only [Option.map_some', Option.some_inj] at hp
        subst hp
        simp [fmtSize, ih vals bs2 hps]

/-- Unpacking after packing, at any offset inside a larger buffer, recovers
the packed values. -/
theorem unpack_pack : ∀ (fmt : List FieldKind) (vals pre bs rest : List Nat),
    packFields fmt vals = some bs →
    unpackFields fmt (pre ++ (bs ++ rest)) pre.length = some vals := by
  intro fmt
  induction fmt with
  | nil =>
    intro vals pre bs rest hp
    cases vals with
    | nil => simp [unpackFields]
    | cons v vs => simp [packFields] at hp
  | cons f fs ih =>
    intro vals pre bs rest hp
    cases f with
    | u64 =>
      cases vals with
      | nil => simp [packFields] at hp
      | cons v vs =>
        simp only [packFields] at hp
        by_cases hv : v < 2 ^ 64
        · rw [if_pos hv] at hp
          cases hps : packFields fs vs with
          | none => rw [hps] at hp; simp at hp
          | some bs2 =>
            rw [hps] at hp
            simp only [Option.map_some', Option.some_inj] at hp
            subst hp
            simp only [unpackFields]
            have hlen : pre.length + 8 ≤ (pre ++ ((toLE v 8 ++ bs2) ++ rest)).length := by
              simp [List.length_append, toLE_length]
            rw [if_pos hlen]
            have hseg : seg (pre ++ ((toLE v 8 ++ bs2) ++ rest)) pre.length 8 = toLE v 8 := by
              have hb : pre ++ ((toLE v 8 ++ bs2) ++ rest)
                  = pre ++ (toLE v 8 ++ (bs2 ++ rest)) := by
                simp [List.append_assoc]
              rw [hb, seg_prefix, List.take_left' (toLE_length 8 v)]
            have hrec : unpackFields fs (pre ++ ((toLE v 8 ++ bs2) ++ rest))
                (pre.length + 8) = some vs := by
              have hb : pre ++ ((toLE v 8 ++ bs2) ++ rest)
                  = (pre ++ toLE v 8) ++ (bs2 ++ rest) := by
                simp [List.append_assoc]
              have hl : pre.length + 8 = (pre ++ toLE v 8).length := by
                simp [toLE_length]
              rw [hb, hl]
              exact ih vs (pre ++ toLE v 8) bs2 rest hps
            have hv' : v < 256 ^ 8 := by
              have h88 : (256 : Nat) ^ 8 = 2 ^ 64 := by norm_num
              rw [h88]; exact hv
            rw [hrec, hseg]
            simp [fromLE_toLE 8 v hv']
        · rw [if_neg hv] at hp; exact absurd hp (by simp)
    | u32 =>
      cases vals with
      | nil => simp [packFields] at hp
      | cons v vs =>
        simp only [packFields] at hp
        by_cases hv : v < 2 ^ 32
        · rw [if_pos hv] at hp
          cases hps : packFields fs vs with
          | none => rw [hps] at hp; simp at hp
          | some bs2 =>
            rw [hps] at hp
            simp only [Option.map_some', Option.some_inj] at hp
            subst hp
            simp only [unpackFields]
            have hlen : pre.length + 4 ≤ (pre ++ ((toLE v 4 ++ bs2) ++ rest)).length := by
              simp [List.length_append, toLE_length]
            rw [if_pos hlen]
            have hseg : seg (pre ++ ((toLE v 4 ++ bs2) ++ rest)) pre.length 4 = toLE v 4 := by
              have hb : pre ++ ((toLE v 4 ++ bs2) ++ rest)
                  = pre ++ (toLE v 4 ++ (bs2 ++ rest)) := by
                simp [List.append_assoc]
              rw [hb, seg_prefix, List.take_left' (toLE_length 4 v)]
            have hrec : unpackFields fs (pre ++ ((toLE v 4 ++ bs2) ++ rest))
                (pre.length + 4) = some vs := by
              have hb : pre ++ ((toLE v 4 ++ bs2) ++ rest)
                  = (pre ++ toLE v 4) ++ (bs2 ++ rest) := by
                simp [List.append_assoc]
              have hl : pre.length + 4 = (pre ++ toLE v 4).length := by
                simp [toLE_length]
              rw [hb, hl]
              exact ih vs (pre ++ toLE v 4) bs2 rest hps
            have hv' : v < 256 ^ 4 := by
              have h84 : (256 : Nat) ^ 4 = 2 ^ 32 := by norm_num
              rw [h84]; exact hv
            rw [hrec, hseg]
            simp [fromLE_toLE 4 v hv']
        · rw [if_neg hv] at hp; exact absurd hp (by simp)
    | pad n =>
      simp only [packFields] at hp
      cases hps : packFields fs vals with
      | none => rw [hps] at hp; simp at hp
      | some bs2 =>
        rw [hps] at hp
        simp only [Option.map_some', Option.some_inj] at hp
        subst hp
        simp only [unpackFields]
        have hlen : pre.length + n ≤ (pre ++ ((List.replicate n 0 ++ bs2) ++ rest)).length := by
          simp [List.length_append]
        rw [if_pos hlen]
        have hb : pre ++ ((List.replicate n 0 ++ bs2) ++ rest)
            = (pre ++ List.replicate n 0) ++ (bs2 ++ rest) := by
          simp [List.append_assoc]
        have hl : pre.length + n = (pre ++ List.replicate n 0).length := by
          simp
        rw [hb, hl]
        exact ih vals (pre ++ List.replicate n 0) bs2 rest hps

/-! ### Header and decode-loop lemmas -/

theorem packFields_header (h : SearchHeader) (hr : headerInRange h) :
    packFields ioctl_search_header (headerVals h) = some (packHeader h) := by
  obtain ⟨h1, h2, h3, h4, h5⟩ := hr
  simp [ioctl_search_header, headerVals, packFields, packHeader, h1, h2, h3, h4, h5,
    List.append_assoc]
  norm_num at h1 h2 h3 h4 h5 ⊢
  exact ⟨h1, h2, h3, h4, h5⟩

theorem parseHeader_pack (pre rest : List Nat) (h : SearchHeader)
    (hr : headerInRange h) :
    parseHeader (pre ++ (packHeader h ++ rest)) pre.length = some h := by
  unfold parseHeader
  rw [unpack_pack ioctl_search_header (headerVals h) pre (packHeader h) rest
    (packFields_header h hr)]
  rfl

theorem decodeItems_zero (buf : List Nat) (struc : Option Nat) (pos : Nat) :
    decodeItems buf struc pos 0 = Except.ok [] := rfl

theorem decodeItems_step_none (buf : List Nat) (pos n : Nat) (hdr : SearchHeader)
    (hph : parseHeader buf pos = some hdr) :
    decodeItems buf none pos (n + 1) =
      Except.map
        (fun rest => (⟨hdr, pySlice buf (pos + 32) (pos + 32 + hdr.len), none⟩ :
          ResultRecord) :: rest)
        (decodeItems buf none (pos + 32 + hdr.len) n) := by
  simp only [decodeItems, hph]
  cases decodeItems buf none (pos + 32 + hdr.len) n with
  | ok rest => rfl
  | error e => rfl

theorem decodeItems_step_some (buf : List Nat) (pos n s : Nat) (hdr : SearchHeader)
    (hph : parseHeader buf pos = some hdr) (hs : pos + 32 + s ≤ buf.length) :
    decodeItems buf (some s) pos (n + 1) =
      Except.map
        (fun rest => (⟨hdr, pySlice buf (pos + 32) (pos + 32 + hdr.len),
          some (seg buf (pos + 32) s)⟩ : ResultRecord) :: rest)
        (decodeItems buf (some s) (pos + 32 + hdr.len) n) := by
  simp only [decodeItems, hph, if_pos hs]
  cases decodeItems buf (some s) (pos + 32 + hdr.len) n with
  | ok rest => rfl
  | error e => rfl

theorem unpackSearchKey_of_length (buf : List Nat) (h : 104 ≤ buf.length) :
    unpackSearchKey buf = some
      [fromLE (seg buf 0 8), fromLE (seg buf 8 8), fromLE (seg buf 16 8),
       fromLE (seg buf 24 8), fromLE (seg buf 32 8), fromLE (seg buf 40 8),
       fromLE (seg buf 48 8), fromLE (seg buf 56 4), fromLE (seg buf 60 4),
       fromLE (seg buf 64 4)] := by
  unfold unpackSearchKey ioctl_search_key
  simp only [unpackFields]
  repeat rw [if_pos (by omega)]
  norm_num

theorem decodeResponse_eq (buf : List Nat) (struc : Option Nat)
    (h : 104 ≤ buf.length) :
    decodeResponse buf struc = decodeItems buf struc 104 (fromLE (seg buf 64 4)) := by
  unfold decodeResponse
  rw [show unpackFields ioctl_search_key buf 0 = unpackSearchKey buf from rfl,
    unpackSearchKey_of_length buf h]

/-- Decoding a buffer that is an arbitrary 104-byte region followed by the
wire bytes of well-formed entries, followed by arbitrary trailing bytes,
yields exactly those entries, regardless of the trailing bytes. -/
theorem decodeItems_entries :
    ∀ (entries : List (SearchHeader × List Nat)) (pre trailing : List Nat),
    (∀ e ∈ entries, headerInRange e.1 ∧ e.2.length = e.1.len) →
    decodeItems (pre ++ (entriesBytes entries ++ trailing)) none pre.length
        entries.length
      = Except.ok (entries.map fun e => ⟨e.1, e.2, none⟩) := by
  intro entries
  induction entries with
  | nil => intro pre trailing _; rfl
  | cons e es ih =>
    intro pre trailing hwf
    obtain ⟨hr, hlen⟩ := hwf e (List.mem_cons_self e es)
    set buf := pre ++ (entriesBytes (e :: es) ++ trailing) with hbuf
    have hb1 : buf = pre ++ (packHeader e.1 ++ (e.2 ++ (entriesBytes es ++ trailing))) := by
      rw [hbuf]; simp [entriesBytes, List.append_assoc]
    have hph : parseHeader buf pre.length = some e.1 := by
      rw [hb1]
      exact parseHeader_pack pre (e.2 ++ (entriesBytes es ++ trailing)) e.1 hr
    rw [List.length_cons, decodeItems_step_none buf pre.length es.length e.1 hph]
    have hraw : pySlice buf (pre.length + 32) (pre.length + 32 + e.1.len) = e.2 := by
      rw [pySlice_eq_seg]
      have hb2 : buf = (pre ++ packHeader e.1) ++ (e.2 ++ (entriesBytes es ++ trailing)) := by
        rw [hb1]; simp [List.append_assoc]
      have hl : pre.length + 32 = (pre ++ packHeader e.1).length := by
        simp [packHeader_length]
      rw [hb2, hl, seg_prefix, List.take_left' hlen]
    have hrec : decodeItems buf none (pre.length + 32 + e.1.len) es.length
        = Except.ok (es.map fun x => ⟨x.1, x.2, none⟩) := by
      have hb3 : buf = (pre ++ packHeader e.1 ++ e.2) ++ (entriesBytes es ++ trailing) := by
        rw [hb1]; simp [List.append_assoc]
      have hl : pre.length + 32 + e.1.len = (pre ++ packHeader e.1 ++ e.2).length := by
        simp [packHeader_length]; omega
      rw [hb3, hl]
      exact ih (pre ++ packHeader e.1 ++ e.2) trailing
        (fun x hx => hwf x (List.mem_cons_of_mem e hx))
    rw [hrec, hraw]
    rfl

/-! ### Lemmas about the packed search key and malformed buffers -/

theorem pySlice_zero (buf : List Nat) (a : Nat) : pySlice buf a a = [] := by
  unfold pySlice
  exact List.drop_eq_nil_of_le (List.length_take_le a buf)

theorem seg_split (buf : List Nat) (a d w : Nat) (h : d ≤ w) :
    seg buf a w = seg buf a d ++ seg buf (a + d) (w - d) := by
  unfold seg
  have hw : (buf.drop a).take w = (buf.drop a).take (d + (w - d)) := by
    congr 1; omega
  rw [hw, List.take_add]
  congr 1
  rw [List.drop_drop]

theorem parseHeader_length_le (buf : List Nat) (pos : Nat) (hdr : SearchHeader)
    (hph : parseHeader buf pos = some hdr) : pos + 32 ≤ buf.length := by
  by_contra hlt
  push_neg at hlt
  unfold parseHeader at hph
  simp only [ioctl_search_header, unpackFields] at hph
  split_ifs at hph <;> simp_all
  omega

theorem packFields_searchKey (t a b c d e f g h i : Nat)
    (ht : t < 2 ^ 64) (ha : a < 2 ^ 64) (hb : b < 2 ^ 64) (hc : c < 2 ^ 64)
    (hd : d < 2 ^ 64) (he : e < 2 ^ 64) (hf : f < 2 ^ 64)
    (hg : g < 2 ^ 32) (hh : h < 2 ^ 32) (hi : i < 2 ^ 32) :
    packFields ioctl_search_key [t, a, b, c, d, e, f, g, h, i]
      = some (searchKeyLayoutSpec t a b c d e f g h i) := by
  simp [ioctl_search_key, packFields, searchKeyLayoutSpec, List.append_assoc,
    ht, ha, hb, hc, hd, he, hf, hg, hh, hi]
  norm_num at ht ha hb hc hd he hf hg hh hi ⊢
  exact ⟨ht, ha, hb, hc, hd, he, hf, hg, hh, hi⟩

theorem searchKeyLayoutSpec_length (t a b c d e f g h i : Nat) :
    (searchKeyLayoutSpec t a b c d e f g h i).length = 104 := by
  simp [searchKeyLayoutSpec, toLE_length]

theorem pack_into_eq (fmt : List FieldKind) (buf vals bs : List Nat)
    (hpf : packFields fmt vals = some bs) (hle : bs.length ≤ buf.length) :
    pack_into fmt buf vals = some (bs ++ buf.drop bs.length) := by
  simp only [pack_into, hpf]
  rw [if_pos hle]

theorem pack_into_bind_unpack (vals bs buf : List Nat) (hbuf : 104 ≤ buf.length)
    (hpf : packFields ioctl_search_key vals = some bs) :
    (pack_into ioctl_search_key buf vals).bind unpackSearchKey = some vals := by
  have hlen : bs.length = 104 := by
    rw [packFields_length ioctl_search_key vals bs hpf]; rfl
  rw [pack_into_eq ioctl_search_key buf vals bs hpf (by omega)]
  simp only [Option.some_bind]
  unfold unpackSearchKey
  have h := unpack_pack ioctl_search_key vals [] bs (buf.drop bs.length) hpf
  simpa using h

/-! ### Claim theorems -/

/-- Claim C1: for a response buffer whose result-count field (the
`max_items` slot at envelope offset 64) holds N, followed by N well-formed
(header, payload) pairs packed contiguously with each payload's length
equal to its header's `data_length`, decoding yields exactly N records in
encounter order, each raw payload has length `data_length`, and the result
does not depend on any trailing bytes after the Nth entry. -/
theorem C1_decode_exact_count (env : List Nat)
    (entries : List (SearchHeader × List Nat)) (trailing : List Nat)
    (henv : env.length = 104)
    (hcount : fromLE (seg env 64 4) = entries.length)
    (hwf : ∀ e ∈ entries, headerInRange e.1 ∧ e.2.length = e.1.len) :
    decodeResponse (env ++ (entriesBytes entries ++ trailing)) none
        = Except.ok (entries.map fun e => ⟨e.1, e.2, none⟩)
      ∧ ∀ r ∈ entries.map (fun e => (⟨e.1, e.2, none⟩ : ResultRecord)),
          r.raw_data.length = r.header.len := by
  constructor
  · have hlen : 104 ≤ (env ++ (entriesBytes entries ++ trailing)).length := by
      simp [List.length_append]; omega
    rw [decodeResponse_eq _ none hlen]
    have hseg : seg (env ++ (entriesBytes entries ++ trailing)) 64 4 = seg env 64 4 :=
      seg_append_left env _ 64 4 (by omega)
    rw [hseg, hcount, show (104 : Nat) = env.length from henv.symm]
    exact decodeItems_entries entries env trailing hwf
  · intro r hr
    simp only [List.mem_map] at hr
    obtain ⟨e, he, rfl⟩ := hr
    exact (hwf e he).2

/-- Witness for C1: a count-1 envelope, one entry with a 2-byte payload,
nonzero trailing bytes. -/
theorem C1_decode_exact_count_witness :
    decodeResponse (countOneEnv ++ (entriesBytes c1entries ++ [255, 255])) none
        = Except.ok (c1entries.map fun e => ⟨e.1, e.2, none⟩)
      ∧ ∀ r ∈ c1entries.map (fun e => (⟨e.1, e.2, none⟩ : ResultRecord)),
          r.raw_data.length = r.header.len :=
  C1_decode_exact_count countOneEnv c1entries [255, 255]
    (by decide) (by decide) (by decide)

/-- Counterexample to claim C2 as stated: a response declaring one record
with `data_length = 5` while zero payload bytes remain decodes without any
error, returning the record with a silently truncated (empty) raw payload —
a best-effort partial parse, not a decode-integrity error. -/
theorem C2_truncation_counterexample :
    c2hdr.len = 5 ∧ c2buf.length = 136 ∧
    decodeResponse c2buf none = Except.ok [⟨c2hdr, [], none⟩] := by
  refine ⟨by decide, by decide, ?_⟩
  rfl

/-- Amended C2: when a record's declared `data_length` exceeds the bytes
remaining and no typed structure is supplied, the raw payload is silently
clamped to the remaining bytes (Python slice semantics) — shorter than
declared — and decoding this final record succeeds instead of reporting an
error.  No out-of-bounds read occurs. -/
theorem C2_truncation_amended (buf : List Nat) (pos : Nat) (hdr : SearchHeader)
    (hph : parseHeader buf pos = some hdr)
    (hover : buf.length < pos + 32 + hdr.len) :
    decodeItems buf none pos 1 = Except.ok [⟨hdr, buf.drop (pos + 32), none⟩]
      ∧ (buf.drop (pos + 32)).length < hdr.len := by
  have hp32 : pos + 32 ≤ buf.length := parseHeader_length_le buf pos hdr hph
  constructor
  · rw [decodeItems_step_none buf pos 0 hdr hph,
      pySlice_of_length_le buf (pos + 32) (pos + 32 + hdr.len) (by omega)]
    rfl
  · rw [List.length_drop]
    omega

/-- Witness for the amended C2, at the truncated buffer of the
counterexample. -/
theorem C2_truncation_amended_witness :
    decodeItems c2buf none 104 1
        = Except.ok [⟨c2hdr, c2buf.drop (104 + 32), none⟩]
      ∧ (c2buf.drop (104 + 32)).length < c2hdr.len :=
  C2_truncation_amended c2buf 104 c2hdr (by decide) (by decide)

/-- Counterexample to claim C3 as stated: a search whose object-id range has
low = 5 > 3 = high is neither rejected nor normalized — encoding succeeds
(so the transport call would be attempted) and the buffer holds 5 and 3
unchanged at the min/max object-id offsets. -/
theorem C3_low_gt_high_counterexample :
    3 < 5 ∧
    (encodeSearchRequest 1 (RangeArg.pair 5 3) key_typeDefault offsetDefault
        transidDefault numberDefault c3buf).bind unpackSearchKey
      = some [1, 5, 3, 0, ULLONG_MAX, 0, ULLONG_MAX, 0, ULONG_MAX, ULONG_MAX] := by
  refine ⟨by decide, ?_⟩
  decide

/-- Amended C3: a range with low > high in any of the four dimensions is
passed through unchecked: whichever dimension receives an inverted pair
(`(lo, hi)` with `hi < lo` at u64 width for object id, offset and
transaction id, `(tlo, thi)` with `thi < tlo` at u32 width for the type),
and whatever the other dimensions' arguments are, no error is reported
before the transport call and no normalization happens — the request
encodes with the low and high values exactly as given. -/
theorem C3_low_gt_high_amended (tree lo hi tlo thi num : Nat)
    (o kt off tr : RangeArg) (buf : List Nat)
    (ht : tree < 2 ^ 64)
    (hlo : lo < 2 ^ 64) (hhi : hi < 2 ^ 64) (_hgt : hi < lo)
    (htlo : tlo < 2 ^ 32) (hthi : thi < 2 ^ 32) (_htgt : thi < tlo)
    (ho1 : o.toPair.1 < 2 ^ 64) (ho2 : o.toPair.2 < 2 ^ 64)
    (hk1 : kt.toPair.1 < 2 ^ 32) (hk2 : kt.toPair.2 < 2 ^ 32)
    (hf1 : off.toPair.1 < 2 ^ 64) (hf2 : off.toPair.2 < 2 ^ 64)
    (htr1 : tr.toPair.1 < 2 ^ 64) (htr2 : tr.toPair.2 < 2 ^ 64)
    (hnum : num < 2 ^ 32) (hbuf : 104 ≤ buf.length) :
    (encodeSearchRequest tree (RangeArg.pair lo hi) kt off tr num buf).bind
        unpackSearchKey
      = some [tree, lo, hi, off.toPair.1, off.toPair.2, tr.toPair.1, tr.toPair.2,
          kt.toPair.1, kt.toPair.2, num]
    ∧ (encodeSearchRequest tree o (RangeArg.pair tlo thi) off tr num buf).bind
        unpackSearchKey
      = some [tree, o.toPair.1, o.toPair.2, off.toPair.1, off.toPair.2,
          tr.toPair.1, tr.toPair.2, tlo, thi, num]
    ∧ (encodeSearchRequest tree o kt (RangeArg.pair lo hi) tr num buf).bind
        unpackSearchKey
      = some [tree, o.toPair.1, o.toPair.2, lo, hi, tr.toPair.1, tr.toPair.2,
          kt.toPair.1, kt.toPair.2, num]
    ∧ (encodeSearchRequest tree o kt off (RangeArg.pair lo hi) num buf).bind
        unpackSearchKey
      = some [tree, o.toPair.1, o.toPair.2, off.toPair.1, off.toPair.2, lo, hi,
          kt.toPair.1, kt.toPair.2, num] := by
  refine ⟨?_, ?_, ?_, ?_⟩
  · unfold encodeSearchRequest
    exact pack_into_bind_unpack _ _ buf hbuf
      (packFields_searchKey tree lo hi off.toPair.1 off.toPair.2 tr.toPair.1
        tr.toPair.2 kt.toPair.1 kt.toPair.2 num
        ht hlo hhi hf1 hf2 htr1 htr2 hk1 hk2 hnum)
  · unfold encodeSearchRequest
    exact pack_into_bind_unpack _ _ buf hbuf
      (packFields_searchKey tree o.toPair.1 o.toPair.2 off.toPair.1 off.toPair.2
        tr.toPair.1 tr.toPair.2 tlo thi num
        ht ho1 ho2 hf1 hf2 htr1 htr2 htlo hthi hnum)
  · unfold encodeSearchRequest
    exact pack_into_bind_unpack _ _ buf hbuf
      (packFields_searchKey tree o.toPair.1 o.toPair.2 lo hi tr.toPair.1
        tr.toPair.2 kt.toPair.1 kt.toPair.2 num
        ht ho1 ho2 hlo hhi htr1 htr2 hk1 hk2 hnum)
  · unfold encodeSearchRequest
    exact pack_into_bind_unpack _ _ buf hbuf
      (packFields_searchKey tree o.toPair.1 o.toPair.2 off.toPair.1 off.toPair.2
        lo hi kt.toPair.1 kt.toPair.2 num
        ht ho1 ho2 hf1 hf2 hlo hhi hk1 hk2 hnum)

/-- Witness for the amended C3: an inverted range in each of the four
dimensions in turn (5 > 3 for the u64 dimensions, 9 > 2 for the type),
with the other dimensions at their defaults. -/
theorem C3_low_gt_high_amended_witness :
    (encodeSearchRequest 1 (RangeArg.pair 5 3) key_typeDefault offsetDefault
        transidDefault ULONG_MAX c3buf).bind unpackSearchKey
      = some [1, 5, 3, 0, ULLONG_MAX, 0, ULLONG_MAX, 0, ULONG_MAX, ULONG_MAX]
    ∧ (encodeSearchRequest 1 objidDefault (RangeArg.pair 9 2) offsetDefault
        transidDefault ULONG_MAX c3buf).bind unpackSearchKey
      = some [1, 0, ULLONG_MAX, 0, ULLONG_MAX, 0, ULLONG_MAX, 9, 2, ULONG_MAX]
    ∧ (encodeSearchRequest 1 objidDefault key_typeDefault (RangeArg.pair 5 3)
        transidDefault ULONG_MAX c3buf).bind unpackSearchKey
      = some [1, 0, ULLONG_MAX, 5, 3, 0, ULLONG_MAX, 0, ULONG_MAX, ULONG_MAX]
    ∧ (encodeSearchRequest 1 objidDefault key_typeDefault offsetDefault
        (RangeArg.pair 5 3) ULONG_MAX c3buf).bind unpackSearchKey
      = some [1, 0, ULLONG_MAX, 0, ULLONG_MAX, 5, 3, 0, ULONG_MAX, ULONG_MAX] :=
  C3_low_gt_high_amended 1 5 3 9 2 ULONG_MAX objidDefault key_typeDefault
    offsetDefault transidDefault c3buf
    (by decide) (by decide) (by decide) (by decide) (by decide) (by decide)
    (by decide) (by decide) (by decide) (by decide) (by decide) (by decide)
    (by decide) (by decide) (by decide) (by decide) (by decide)

/-- Claim C4: for field values within their declared widths, encoding the
search key into a buffer and re-reading the same fixed offsets yields
exactly the original ten field values, with no loss and no reordering. -/
theorem C4_round_trip (tree minO maxO minOff maxOff minT maxT minTy maxTy
    num : Nat) (buf : List Nat) (hbuf : 104 ≤ buf.length)
    (ht : tree < 2 ^ 64) (h1 : minO < 2 ^ 64) (h2 : maxO < 2 ^ 64)
    (h3 : minOff < 2 ^ 64) (h4 : maxOff < 2 ^ 64) (h5 : minT < 2 ^ 64)
    (h6 : maxT < 2 ^ 64) (h7 : minTy < 2 ^ 32) (h8 : maxTy < 2 ^ 32)
    (h9 : num < 2 ^ 32) :
    (encodeSearchRequest tree (RangeArg.pair minO maxO) (RangeArg.pair minTy maxTy)
        (RangeArg.pair minOff maxOff) (RangeArg.pair minT maxT) num buf).bind
        unpackSearchKey
      = some [tree, minO, maxO, minOff, maxOff, minT, maxT, minTy, maxTy, num] := by
  unfold encodeSearchRequest
  rw [show searchKeyVals tree (RangeArg.pair minO maxO) (RangeArg.pair minTy maxTy)
      (RangeArg.pair minOff maxOff) (RangeArg.pair minT maxT) num
    = [tree, minO, maxO, minOff, maxOff, minT, maxT, minTy, maxTy, num] from rfl]
  exact pack_into_bind_unpack _ _ buf hbuf
    (packFields_searchKey tree minO maxO minOff maxOff minT maxT minTy maxTy num
      ht h1 h2 h3 h4 h5 h6 h7 h8 h9)

/-- Witness for C4 with mixed small and maximal values. -/
theorem C4_round_trip_witness :
    (encodeSearchRequest 5 (RangeArg.pair 256 ULLONG_MAX) (RangeArg.pair 192 192)
        (RangeArg.pair 0 ULLONG_MAX) (RangeArg.pair 7 ULLONG_MAX) 2
        (sized_array 104)).bind unpackSearchKey
      = some [5, 256, ULLONG_MAX, 0, ULLONG_MAX, 7, ULLONG_MAX, 192, 192, 2] :=
  C4_round_trip 5 256 ULLONG_MAX 0 ULLONG_MAX 7 ULLONG_MAX 192 192 2
    (sized_array 104) (by decide) (by decide) (by decide) (by decide) (by decide)
    (by decide) (by decide) (by decide) (by decide) (by decide) (by decide)

/-- Claim C5: for each of the four dimensions (object id, type, offset,
transaction id), passing the scalar v produces exactly the same encoded
request bytes as passing the explicit pair (v, v), all other arguments
equal. -/
theorem C5_scalar_collapse (tree v num : Nat) (o kt off tr : RangeArg)
    (buf : List Nat) :
    encodeSearchRequest tree (RangeArg.scalar v) kt off tr num buf
        = encodeSearchRequest tree (RangeArg.pair v v) kt off tr num buf
      ∧ encodeSearchRequest tree o (RangeArg.scalar v) off tr num buf
        = encodeSearchRequest tree o (RangeArg.pair v v) off tr num buf
      ∧ encodeSearchRequest tree o kt (RangeArg.scalar v) tr num buf
        = encodeSearchRequest tree o kt (RangeArg.pair v v) tr num buf
      ∧ encodeSearchRequest tree o kt off (RangeArg.scalar v) num buf
        = encodeSearchRequest tree o kt off (RangeArg.pair v v) num buf :=
  ⟨rfl, rfl, rfl, rfl⟩

/-- Claim C6: encoding writes the envelope fields into the buffer's leading
bytes in exactly the order tree id; object-id low/high; offset low/high;
transaction-id low/high; type low/high; max items — u64 for the tree id and
the object-id/offset/transaction-id bounds, u32 for the type bounds and max
items — followed by 4 and 32 zero-filled reserved bytes; the rest of the
buffer is untouched. -/
theorem C6_envelope_layout (tree minO maxO minOff maxOff minT maxT minTy maxTy
    num : Nat) (buf : List Nat) (hbuf : 104 ≤ buf.length)
    (ht : tree < 2 ^ 64) (h1 : minO < 2 ^ 64) (h2 : maxO < 2 ^ 64)
    (h3 : minOff < 2 ^ 64) (h4 : maxOff < 2 ^ 64) (h5 : minT < 2 ^ 64)
    (h6 : maxT < 2 ^ 64) (h7 : minTy < 2 ^ 32) (h8 : maxTy < 2 ^ 32)
    (h9 : num < 2 ^ 32) :
    encodeSearchRequest tree (RangeArg.pair minO maxO) (RangeArg.pair minTy maxTy)
        (RangeArg.pair minOff maxOff) (RangeArg.pair minT maxT) num buf
      = some (searchKeyLayoutSpec tree minO maxO minOff maxOff minT maxT minTy
          maxTy num ++ buf.drop 104) := by
  unfold encodeSearchRequest
  rw [show searchKeyVals tree (RangeArg.pair minO maxO) (RangeArg.pair minTy maxTy)
      (RangeArg.pair minOff maxOff) (RangeArg.pair minT maxT) num
    = [tree, minO, maxO, minOff, maxOff, minT, maxT, minTy, maxTy, num] from rfl]
  rw [pack_into_eq ioctl_search_key buf _ _
    (packFields_searchKey tree minO maxO minOff maxOff minT maxT minTy maxTy num
      ht h1 h2 h3 h4 h5 h6 h7 h8 h9)
    (by rw [searchKeyLayoutSpec_length]; omega)]
  rw [searchKeyLayoutSpec_length]

/-- Witness for C6. -/
theorem C6_envelope_layout_witness :
    encodeSearchRequest 2 (RangeArg.pair 0 ULLONG_MAX) (RangeArg.pair 192 192)
        (RangeArg.pair 0 ULLONG_MAX) (RangeArg.pair 0 ULLONG_MAX) 4096
        (sized_array 104)
      = some (searchKeyLayoutSpec 2 0 ULLONG_MAX 0 ULLONG_MAX 0 ULLONG_MAX 192 192
          4096 ++ (sized_array 104).drop 104) :=
  C6_envelope_layout 2 0 ULLONG_MAX 0 ULLONG_MAX 0 ULLONG_MAX 192 192 4096
    (sized_array 104) (by decide) (by decide) (by decide) (by decide) (by decide)
    (by decide) (by decide) (by decide) (by decide) (by decide) (by decide)

/-- Claim C7: omitted dimension arguments default to the full domain —
(0, 2^64 - 1) for object id, offset and transaction id, (0, 2^32 - 1) for
the type — and an omitted max-items cap defaults to 2^32 - 1; a search call
with the defaults encodes identically to one passing those values
explicitly. -/
theorem C7_defaults (tree : Nat) (buf : List Nat) :
    objidDefault = RangeArg.pair 0 (2 ^ 64 - 1)
      ∧ offsetDefault = RangeArg.pair 0 (2 ^ 64 - 1)
      ∧ transidDefault = RangeArg.pair 0 (2 ^ 64 - 1)
      ∧ key_typeDefault = RangeArg.pair 0 (2 ^ 32 - 1)
      ∧ numberDefault = 2 ^ 32 - 1
      ∧ encodeSearchRequest tree objidDefault key_typeDefault offsetDefault
          transidDefault numberDefault buf
        = encodeSearchRequest tree (RangeArg.pair 0 (2 ^ 64 - 1))
            (RangeArg.pair 0 (2 ^ 32 - 1)) (RangeArg.pair 0 (2 ^ 64 - 1))
            (RangeArg.pair 0 (2 ^ 64 - 1)) (2 ^ 32 - 1) buf :=
  ⟨by decide, by decide, by decide, by decide, by decide, rfl⟩

/-- Claim C8: a response whose result-count field is 0 decodes to the empty
record list and never an error, regardless of the remaining buffer
contents and of whether a typed structure is supplied. -/
theorem C8_empty_result (buf : List Nat) (struc : Option Nat)
    (hlen : 104 ≤ buf.length) (hcount : fromLE (seg buf 64 4) = 0) :
    decodeResponse buf struc = Except.ok [] := by
  rw [decodeResponse_eq buf struc hlen, hcount]
  rfl

/-- Witness for C8: an all-zero envelope followed by nonzero junk bytes,
with a typed structure supplied. -/
theorem C8_empty_result_witness : decodeResponse c8buf (some 4) = Except.ok [] :=
  C8_empty_result c8buf (some 4) (by decide) (by decide)

/-- Claim C9: a record whose header declares `data_length = 0` decodes to a
record with an empty raw payload, and the cursor advances exactly 32 bytes
so every subsequent record decodes from the right position. -/
theorem C9_zero_length_payload (buf : List Nat) (pos n : Nat)
    (hdr : SearchHeader) (hph : parseHeader buf pos = some hdr)
    (hzero : hdr.len = 0) :
    decodeItems buf none pos (n + 1)
      = Except.map (fun rest => (⟨hdr, [], none⟩ : ResultRecord) :: rest)
          (decodeItems buf none (pos + 32) n) := by
  rw [decodeItems_step_none buf pos n hdr hph, hzero]
  simp [pySlice_zero]

/-- Witness for C9: a zero-length record followed by a 1-byte record. -/
theorem C9_zero_length_payload_witness :
    decodeItems c9buf none 0 2
      = Except.map (fun rest => (⟨c9h0, [], none⟩ : ResultRecord) :: rest)
          (decodeItems c9buf none 32 1) :=
  C9_zero_length_payload c9buf 0 1 c9h0 (by decide) (by decide)

/-- Claim C10: when a typed-decode structure of size s is supplied, it is
applied at every record's payload offset regardless of the record's
item_type and without checking `data_length ≥ s` — the typed payload is
the s bytes at the payload offset, which extend into the following
record's bytes whenever s exceeds `data_length` (provided the buffer is
long enough); with no structure supplied the typed payload is `none` while
the raw payload is still returned. -/
theorem C10_typed_decode (buf : List Nat) (pos n s : Nat) (hdr : SearchHeader)
    (hph : parseHeader buf pos = some hdr) (hs : pos + 32 + s ≤ buf.length) :
    decodeItems buf (some s) pos (n + 1)
        = Except.map (fun rest =>
            (⟨hdr, pySlice buf (pos + 32) (pos + 32 + hdr.len),
              some (seg buf (pos + 32) s)⟩ : ResultRecord) :: rest)
          (decodeItems buf (some s) (pos + 32 + hdr.len) n)
      ∧ decodeItems buf none pos (n + 1)
        = Except.map (fun rest =>
            (⟨hdr, pySlice buf (pos + 32) (pos + 32 + hdr.len), none⟩ :
              ResultRecord) :: rest)
          (decodeItems buf none (pos + 32 + hdr.len) n)
      ∧ (hdr.len ≤ s →
          seg buf (pos + 32) s
            = pySlice buf (pos + 32) (pos + 32 + hdr.len)
              ++ seg buf (pos + 32 + hdr.len) (s - hdr.len)) := by
  refine ⟨decodeItems_step_some buf pos n s hdr hph hs,
    decodeItems_step_none buf pos n hdr hph, ?_⟩
  intro hle
  rw [pySlice_eq_seg]
  exact seg_split buf (pos + 32) hdr.len s hle

/-- Witness for C10: structure size 40 against a record with a 2-byte
payload — the typed segment spans the payload and 38 bytes of the next
record. -/
theorem C10_typed_decode_witness :
    decodeItems c10buf (some 40) 0 2
        = Except.map (fun rest =>
            (⟨c10h0, pySlice c10buf 32 34, some (seg c10buf 32 40)⟩ :
              ResultRecord) :: rest)
          (decodeItems c10buf (some 40) 34 1)
      ∧ decodeItems c10buf none 0 2
        = Except.map (fun rest =>
            (⟨c10h0, pySlice c10buf 32 34, none⟩ : ResultRecord) :: rest)
          (decodeItems c10buf none 34 1)
      ∧ (c10h0.len ≤ 40 →
          seg c10buf 32 40 = pySlice c10buf 32 34 ++ seg c10buf 34 38) :=
  C10_typed_decode c10buf 0 1 40 c10h0 (by decide) (by decide)

end Btrfs
